import Mathlib

/-!
# Verification of the Parse data service (ParseDataService)

Shallow embedding of `src/app/src/app/services/data.service.ts` from
`alyssoncm/customer-ste-library`: the graph transcoder
(`mappings` / `mapParseAttributesToEntityObject` /
`mapParseArrayOfAttributesToEntityObject`), the reference-array differ,
the live-buffer event handlers (`startupBuffer`'s `leave`/`delete`
callbacks), and the data-access operations `save`, `destroy`,
`getFullObjectById`, `fetchObjectByIdIfNeeded`.

Remote (Parse-side) values are modelled by `RVal`; a Parse.Object is
`RVal.doc className oid attrs` (Parse.User / Parse.Role instances are
Parse.Objects whose class names are `"_User"` / `"_Role"`, so they are
`doc` nodes here as well, matching `instanceof Parse.Object`).
Hydrated (domain-side) values are `HVal`.  The class registry
(`Classnames`) maps a class name to either a domain constructor
(`EntityObjectDefinition`, modelled `RegEntry.ctorE`), a string sentinel
(modelled `RegEntry.strE`), or nothing (`RegEntry.absent`).
-/

namespace DataService

/-- A remote (Parse-side) attribute value.
`doc` is a `Parse.Object` (class name, server id — `none` until saved —
and attribute bag); `file` is a `Parse.File` (name, url); `scalar`
covers primitive JSON values; `undefV` models a JavaScript `undefined`
stored into an attribute. -/
inductive RVal where
  | scalar (s : String)
  | undefV
  | file (name url : String)
  | doc (className : String) (oid : Option String) (attrs : List (String × RVal))
  | arr (elems : List RVal)

/-- `object.id` of a Parse value: defined only for saved `Parse.Object`s;
accessing `.id` on anything else yields `undefined` (here `none`),
matching the `y.id == x.id` comparisons in `mappings`. -/
def idOf : RVal → Option String
  | .doc _ oid _ => oid
  | _ => none

/-- `x instanceof Parse.Object` (Parse.User and Parse.Role included). -/
def isParseObject : RVal → Bool
  | .doc _ _ _ => true
  | _ => false

mutual

/-- Deep value equality on remote values, as used by the Parse SDK's
array operations (`equals`): elementwise on arrays, keywise on attribute
bags, componentwise on files. -/
def rbeq : RVal → RVal → Bool
  | .scalar a, .scalar b => a == b
  | .undefV, .undefV => true
  | .file n u, .file n' u' => n == n' && u == u'
  | .doc c i a, .doc c' i' a' => c == c' && i == i' && rbeqAttrs a a'
  | .arr es, .arr es' => rbeqList es es'
  | _, _ => false
termination_by v _ => sizeOf v

def rbeqAttrs : List (String × RVal) → List (String × RVal) → Bool
  | [], [] => true
  | (k, v) :: rest, (k', v') :: rest' => k == k' && rbeq v v' && rbeqAttrs rest rest'
  | _, _ => false
termination_by l _ => sizeOf l

def rbeqList : List RVal → List RVal → Bool
  | [], [] => true
  | v :: rest, v' :: rest' => rbeq v v' && rbeqList rest rest'
  | _, _ => false
termination_by l _ => sizeOf l

end

/-- A registry entry of `Classnames`: absent key, a string sentinel
(`Classnames._User = "_User"`, `Classnames.File = "_File"`), or an
`EntityObjectDefinition` carrying a domain constructor. -/
inductive RegEntry where
  | absent
  | strE (s : String)
  | ctorE
deriving DecidableEq

/-- A hydrated (domain-side) value as produced by
`mapParseAttributesToEntityObject` and friends.
`objH` is a constructed domain object: its class name, its converted
fields, and the originating document attached as `m["entity"]`.
`rawH` is an attribute copied through unchanged (the final `else`
branch `m[property] = parseElement.attributes[element]`).
`undefH` is the `undefined` returned on a registry miss. -/
inductive HVal where
  | fileH (name url : String)
  | userH (d : RVal)
  | objH (className : String) (fields : List (String × HVal)) (entity : RVal)
  | rawH (v : RVal)
  | arrH (elems : List HVal)
  | undefH

/-- `mapFile`: builds an `EntityFile` from a `Parse.File` via
`parseFile.name()` / `parseFile.url()`, keeping the file as the entity.
On a non-file (only reachable through the dead `"File"` registry
comparison) the member accesses yield `undefined`, modelled as `""`. -/
def mapFile : RVal → HVal
  | .file n u => .fileH n u
  | _ => .fileH "" ""

mutual

/-- The body of `mapParseAttributesToEntityObject` applied to a
`Parse.Object` with class name `cn`, id `oid` and attribute bag `attrs`,
at recursion depth `d` with maximum depth `md`: registry lookup, the
string-sentinel branches, then `new classReference.type()` and — only
while `maxDeep != deepLevel` — the walk over `parseElement.attributes`;
the originating document is always attached as `m["entity"]`. -/
def hydObj (reg : String → RegEntry) (cn : String) (oid : Option String)
    (attrs : List (String × RVal)) (d md : Nat) : HVal :=
  match reg cn with
  | .absent => .undefH
  | .strE s =>
      if s = "_User" then .userH (.doc cn oid attrs)
      -- the source compares the entry against "File", but the registry
      -- stores "_File" under the `File` key, so this branch is dead for
      -- the registry as shipped; `mapFile` on a document is modelled by
      -- its total extension above.
      else if s = "File" then mapFile (.doc cn oid attrs)
      -- a string entry other than the two sentinels falls through to
      -- `if (!classReference.type)` and returns undefined.
      else .undefH
  | .ctorE =>
      .objH cn (if md ≠ d then hydAttrs reg attrs d md else [])
        (.doc cn oid attrs)
termination_by sizeOf attrs + 1

/-- The `Object.keys(parseElement.attributes).forEach` walk: converts
each attribute in order, keeping its name. -/
def hydAttrs (reg : String → RegEntry) :
    List (String × RVal) → Nat → Nat → List (String × HVal)
  | [], _, _ => []
  | (k, v) :: rest, d, md => (k, hydVal reg v d md) :: hydAttrs reg rest d md
termination_by l _ _ => sizeOf l

/-- Conversion of one attribute value, mirroring the `if`/`else if`
chain: `Parse.File` first, then `Parse.Object` (which also captures
Parse.User / Parse.Role instances, making the later `instanceof
Parse.User` / `instanceof Parse.Role` branches unreachable), then an
array whose first element is a `Parse.Object` (hydrated through
`mapParseArrayOfAttributesToEntityObject` at `deepLevel + 1`, inlined
here), and otherwise the value is copied through unchanged. -/
def hydVal (reg : String → RegEntry) : RVal → Nat → Nat → HVal
  | .file n u, _, _ => .fileH n u
  | .doc cn oid attrs, d, md => hydObj reg cn oid attrs (d + 1) md
  | .arr [], _, _ => .rawH (.arr [])
  | .arr (e :: es), d, md =>
      if isParseObject e then
        -- mapParseArrayOfAttributesToEntityObject(arr, d + 1, md), inlined:
        .arrH (if md ≠ d + 1 then hydElems reg (e :: es) (d + 1)
               else (e :: es).map .rawH)
      else .rawH (.arr (e :: es))
  | v, _, _ => .rawH v
termination_by v _ _ => sizeOf v
decreasing_by
  all_goals simp_wf
  all_goals (cases oid <;> simp <;> omega)

/-- The element mapping of `mapParseArrayOfAttributesToEntityObject`:
`parseElements.map(parseElement =>
this.mapParseAttributesToEntityObject(parseElement, deepLevel))`.
The call passes only the depth, so `maxDeep` silently reverts to the
single-object default `3` for every element.  A non-document element
has no registered class name and hydrates to `undefined`. -/
def hydElems (reg : String → RegEntry) : List RVal → Nat → List HVal
  | [], _ => []
  | .doc cn oid attrs :: rest, d =>
      hydObj reg cn oid attrs d 3 :: hydElems reg rest d
  | _ :: rest, d => .undefH :: hydElems reg rest d
termination_by l _ => sizeOf l

end

/-- `mapParseAttributesToEntityObject(parseElement, deepLevel, maxDeep)`
as invoked on an arbitrary value: a null check, then the class-name
registry lookup (a non-`Parse.Object` has no class name, so the lookup
misses and the call returns `undefined`). -/
def mapParseAttributesToEntityObject (reg : String → RegEntry) :
    RVal → Nat → Nat → HVal
  | .doc cn oid attrs, d, md => hydObj reg cn oid attrs d md
  | _, _, _ => .undefH

/-- `mapParseArrayOfAttributesToEntityObject(parseElements, deepLevel,
maxDeep)`: while `maxDeep != deepLevel` each element is mapped through
`mapParseAttributesToEntityObject(parseElement, deepLevel)` — the
`maxDeep` argument is not forwarded, so each element is hydrated with
that function's default maximum depth of 3; at `maxDeep == deepLevel`
the raw array is returned unchanged. -/
def mapParseArrayOfAttributesToEntityObject (reg : String → RegEntry)
    (es : List RVal) (d md : Nat) : List HVal :=
  if md ≠ d then hydElems reg es d else es.map .rawH

/-- `afterBufferDownload`: the bulk hydration used by the Live Buffer
populate path, `mapParseArrayOfAttributesToEntityObject(parseObjects, 0, 2)`. -/
def afterBufferDownload (reg : String → RegEntry) (parseObjects : List RVal) :
    List HVal :=
  mapParseArrayOfAttributesToEntityObject reg parseObjects 0 2

/-! ## The flatten direction (`mappings`) -/

/-- A single (non-array) attribute value of a domain object:
an `EntityObject` (anything carrying an `entity` member), an
`EntityFile`, an already-Parse-shaped value, or a plain scalar. -/
inductive TVal where
  | scalar (s : String)
  | entityObjV (entity : Option RVal)
  | entityFileV (entity : Option RVal)
  | parseV (v : RVal)

/-- A field of a domain object: the `Array.isArray` dispatch in
`mappings` distinguishes array fields, and `undefined` fields are
unset. -/
inductive TField where
  | single (v : TVal)
  | arrF (es : List TVal)
  | undefF

/-- A Parse.Object under construction or loaded: class name, server id
(`none` until first save), attribute bag. -/
structure PDoc where
  className : String
  oid : Option String
  attrs : List (String × RVal)

def PDoc.toRVal (p : PDoc) : RVal := .doc p.className p.oid p.attrs

/-- `parseObject.set(key, value)`: replace the attribute if present,
append it otherwise. -/
def setAttr : List (String × RVal) → String → RVal → List (String × RVal)
  | [], k, v => [(k, v)]
  | (k', v') :: rest, k, v =>
      if k' = k then (k, v) :: rest else (k', v') :: setAttr rest k v

def PDoc.set (p : PDoc) (k : String) (v : RVal) : PDoc :=
  { p with attrs := setAttr p.attrs k v }

/-- `parseObject.unset(key)`: the field is tombstoned; locally the
attribute no longer appears in the bag. -/
def PDoc.unset (p : PDoc) (k : String) : PDoc :=
  { p with attrs := p.attrs.filter (fun kv => kv.1 != k) }

/-- `mapTypescriptAttributeToParseObjectAttribute`: an `EntityObject` or
`EntityFile` resolves to its `entity` handle (which is `undefined` when
the object was never saved), an already-Parse-shaped value and any other
value pass through unchanged. -/
def mapTypescriptAttributeToParseObjectAttribute : TVal → RVal
  | .scalar s => .scalar s
  | .entityObjV (some e) => e
  | .entityObjV none => .undefV
  | .entityFileV (some e) => e
  | .entityFileV none => .undefV
  | .parseV v => v

/-- `checkIfIndexingIsNeeded`: true for `EntityObject`s, `EntityFile`s
and Parse-shaped values (Parse.Object / Parse.File / Parse.User /
Parse.Role), false otherwise. -/
def checkIfIndexingIsNeeded : TVal → Bool
  | .scalar _ => false
  | .entityObjV _ => true
  | .entityFileV _ => true
  | .parseV (.doc _ _ _) => true
  | .parseV (.file _ _) => true
  | .parseV _ => false

/-- JavaScript truthiness of an attribute value, as used by
`if (parseObject.get(property))`: `undefined` is falsy, the empty
primitive is falsy, every object — an empty array included — is
truthy. -/
def truthyV : RVal → Bool
  | .scalar s => s ≠ ""
  | .undefV => false
  | _ => true

def truthy : Option RVal → Bool
  | none => false
  | some v => truthyV v

/-- Pointer-aware equality used by the Parse SDK's array operations:
saved or unsaved Parse.Objects compare by class name and id
(`undefined` ids compare equal), everything else by the SDK's deep
`equals`. -/
def pEq (x y : RVal) : Bool :=
  match x, y with
  | .doc cx ix _, .doc cy iy _ => cx == cy && ix == iy
  | x, y => rbeq x y

/-- `toRemove`: `current.filter(x => !parseAttributes.some(y => y.id == x.id))` —
the persisted references whose identifier no longer occurs among the
desired ones. -/
def refToRemove (cur parseAttributes : List RVal) : List RVal :=
  cur.filter (fun x => ! parseAttributes.any (fun y => idOf y == idOf x))

/-- `toAdd`: `parseAttributes.filter(x => !current.some(y => y.id == x.id))` —
the desired references whose identifier is absent from the persisted
array. -/
def refToAdd (cur parseAttributes : List RVal) : List RVal :=
  parseAttributes.filter (fun x => ! cur.any (fun y => idOf y == idOf x))

/-- The array-level effect of `Parse.Object.addUnique`: append the value
unless an equal one is already present. -/
def addUniqueList (cur : List RVal) (x : RVal) : List RVal :=
  if cur.any (fun y => pEq y x) then cur else cur ++ [x]

/-- The array-level effect of `Parse.Object.remove`: drop every element
equal to the value. -/
def removeList (cur : List RVal) (x : RVal) : List RVal :=
  cur.filter (fun y => ! pEq y x)

/-- `parseObject.addUnique(property, x)`: succeeds on an array or unset
field; on a non-array field the SDK rejects the operation (`none` here,
surfaced by the call site's `throw`). -/
def pAddUnique (p : PDoc) (k : String) (x : RVal) : Option PDoc :=
  match p.attrs.lookup k with
  | some (.arr cur) => some (p.set k (.arr (addUniqueList cur x)))
  | none => some (p.set k (.arr (addUniqueList [] x)))
  | some _ => none

/-- `parseObject.remove(property, x)`: likewise. -/
def pRemove (p : PDoc) (k : String) (x : RVal) : Option PDoc :=
  match p.attrs.lookup k with
  | some (.arr cur) => some (p.set k (.arr (removeList cur x)))
  | none => some (p.set k (.arr (removeList [] x)))
  | some _ => none

/-- `for (let x of toAdd) { const res = parseObject.addUnique(property, x);
if (res) parseObject = res; else throw ... }`. -/
def applyToAdd (p : PDoc) (k : String) : List RVal → Option PDoc
  | [] => some p
  | x :: rest =>
      match pAddUnique p k x with
      | some p' => applyToAdd p' k rest
      | none => none

/-- The matching loop over `toRemove`. -/
def applyToRemove (p : PDoc) (k : String) : List RVal → Option PDoc
  | [] => some p
  | x :: rest =>
      match pRemove p k x with
      | some p' => applyToRemove p' k rest
      | none => none

/-- The reference-array diff block of `mappings`: compute `toRemove` and
`toAdd` against the field's current value, then add the additions and
remove the removals one by one, aborting the whole transcoding if the
store rejects an operation. -/
def applyRefDiff (p : PDoc) (k : String) (cur parseAttributes : List RVal) :
    Except String PDoc :=
  match applyToAdd p k (refToAdd cur parseAttributes) with
  | none => .error "Error in adding element to array"
  | some p1 =>
      match applyToRemove p1 k (refToRemove cur parseAttributes) with
      | none => .error "Error in removing element from array"
      | some p2 => .ok p2

/-- `parseObject.addAllUnique(property, parseAttributes)`: a single bulk
add-unique, i.e. the values folded through `addUnique` starting from an
empty previous value. -/
def addAllUniqueList (parseAttributes : List RVal) : List RVal :=
  parseAttributes.foldl addUniqueList []

/-- The body of the `for (property in entityObject)` loop of `mappings`,
threading the document plus the two deprecated bookkeeping lists
`entityArrayProperties` and `entityProperties` in push order.
A defined non-array field is mapped and `set`; a defined array field is
mapped elementwise, and when its first mapped element is a Parse.Object
the reference-array diff (or, on a falsy current value, `addAllUnique`)
is applied instead of an overwrite; an `undefined` field is `unset`. -/
def mappingsLoop (p : PDoc) (eap ep : List String) :
    List (String × TField) → Except String (PDoc × List String × List String)
  | [] => .ok (p, eap, ep)
  | (k, .undefF) :: rest => mappingsLoop (p.unset k) eap ep rest
  | (k, .single v) :: rest =>
      let p' := p.set k (mapTypescriptAttributeToParseObjectAttribute v)
      let ep' := if checkIfIndexingIsNeeded v then ep ++ [k] else ep
      mappingsLoop p' eap ep' rest
  | (k, .arrF es) :: rest =>
      let parseAttributes := es.map mapTypescriptAttributeToParseObjectAttribute
      let eap' := if es.any checkIfIndexingIsNeeded then eap ++ [k] else eap
      match parseAttributes with
      | pa0 :: _ =>
          if isParseObject pa0 then
            if truthy (p.attrs.lookup k) then
              match p.attrs.lookup k with
              | some (.arr cur) =>
                  match applyRefDiff p k cur parseAttributes with
                  | .error e => .error e
                  | .ok p2 => mappingsLoop p2 eap' ep rest
              -- a truthy non-array current value makes the source cast
              -- `(parseObject.get(property) as Parse.Object[]).filter`
              -- fail at run time.
              | _ => .error "TypeError: parseObject.get(property).filter is not a function"
            else
              mappingsLoop (p.set k (.arr (addAllUniqueList parseAttributes))) eap' ep rest
          else
            mappingsLoop (p.set k (.arr parseAttributes)) eap' ep rest
      | [] => mappingsLoop (p.set k (.arr parseAttributes)) eap' ep rest

/-- `mappings(entityObject)`: reuse the existing handle when present,
else create a fresh document tagged with the service's class name; run
the field loop (the `entity` field itself is skipped, so it is not part
of `DomainObj.fields`); finally `set` the two bookkeeping attributes —
on every call, create and update alike. -/
structure DomainObj where
  entity : Option PDoc
  fields : List (String × TField)

def mappings (classname : String) (o : DomainObj) : Except String PDoc :=
  let p0 : PDoc :=
    match o.entity with
    | some d => d
    | none => { className := classname, oid := none,
                attrs := [("classname", .scalar classname)] }
  match mappingsLoop p0 [] [] o.fields with
  | .error e => .error e
  | .ok (p, eap, ep) =>
      .ok ((p.set "entityArrayProperties" (.arr (eap.map .scalar))).set
            "entityProperties" (.arr (ep.map .scalar)))

/-- Does a field count into `entityArrayProperties`? An array field with
at least one element that needs indexing. -/
def isRefArrayField : TField → Bool
  | .arrF es => es.any checkIfIndexingIsNeeded
  | _ => false

/-- Does a field count into `entityProperties`? A defined non-array
field that needs indexing. -/
def isRefSingleField : TField → Bool
  | .single v => checkIfIndexingIsNeeded v
  | _ => false

/-! ## Data-access operations -/

/-- `save(entityObject)`: transcode through `mappings`, persist, and on
success re-attach the returned handle; a persistence failure is logged
and the original object is returned with its `entity` field exactly as
it was. -/
def save (classname : String) (o : DomainObj)
    (persist : PDoc → Except String PDoc) : Except String DomainObj :=
  match mappings classname o with
  | .error e => .error e
  | .ok parseObject =>
      match persist parseObject with
      | .error _ => .ok o
      | .ok savedEntity => .ok { o with entity := some savedEntity }

/-- `destroy(entityObject)`: `throw "Entity not found"` when the object
carries no handle (before any store interaction); otherwise delete via
the store and re-raise `Error("Error in deleting entity")` when the
store rejects, mapping the result back on success. -/
def destroy (reg : String → RegEntry) (o : DomainObj)
    (destroyOp : PDoc → Except String PDoc) : Except String HVal :=
  match o.entity with
  | none => .error "Entity not found"
  | some entity =>
      match destroyOp entity with
      | .ok res => .ok (mapParseAttributesToEntityObject reg res.toRVal 0 3)
      | .error _ => .error "Error in deleting entity"

/-- `getFullObjectById(id)`: single-object deep fetch; any query failure
yields `undefined` and then `throw new Error("Error: Object not found.")`;
a hit hydrates at depth 0 with maximum depth 3. -/
def getFullObjectById (reg : String → RegEntry) (store : String → Option PDoc)
    (id : String) : Except String HVal :=
  match store id with
  | none => .error "Error: Object not found."
  | some d => .ok (mapParseAttributesToEntityObject reg d.toRVal 0 3)

/-- Substring test (`err.message.includes(...)`). -/
def containsSub (needle hay : String) : Bool :=
  (List.range (hay.length + 1)).any (fun i =>
    (hay.data.drop i).take needle.length = needle.data)

/-- `fetchObjectByIdIfNeeded(id)`: with a missing or empty cache the call
delegates directly to `getFullObjectById` (outside any try/catch);
otherwise the cached value is returned when present, and a miss falls
back to `getFullObjectById` — whose failure is caught, retried once, and
on a second failure the function resolves with `undefined` (explicitly
for a not-found message, and by falling through to the unset
`returnValue` otherwise). -/
def fetchObjectByIdIfNeeded (reg : String → RegEntry)
    (store : String → Option PDoc) (dataBuffer : Option (List (String × HVal)))
    (id : String) : Except String (Option HVal) :=
  match dataBuffer with
  | none => (getFullObjectById reg store id).map some
  | some buf =>
      if buf.length = 0 then (getFullObjectById reg store id).map some
      else
        match buf.lookup id with
        | some v => .ok (some v)
        | none =>
            match getFullObjectById reg store id with
            | .ok v => .ok (some v)
            | .error _ =>
                match getFullObjectById reg store id with
                | .ok v => .ok (some v)
                | .error e =>
                    if containsSub "Object not found." e then .ok none
                    else .ok none

/-! ## Live Buffer event handlers -/

/-- The `leave` handler of `startupBuffer` (the `delete` handler is
identical): first emit the event with the value currently cached under
`object.id` (hence `none` when the id is not cached), then
`delete this.dataBuffer[object.id]`.  The returned pair is (emitted
payload, cache after removal). -/
def startupBufferLeaveHandler (dataBuffer : List (String × HVal))
    (id : String) : Option HVal × List (String × HVal) :=
  (dataBuffer.lookup id, dataBuffer.filter (fun kv => kv.1 != id))

/-! ## Concrete fixtures used by witnesses and counterexamples -/

/-- A concrete registry: domain classes `A`, `B`, `C`, `Task`, plus the
two built-in string entries exactly as `Classnames` declares them. -/
def reg0 : String → RegEntry := fun cn =>
  if cn = "A" ∨ cn = "B" ∨ cn = "C" ∨ cn = "Task" then .ctorE
  else if cn = "_User" then .strE "_User"
  else if cn = "File" then .strE "_File"
  else .absent

def docC : RVal := .doc "C" (some "c1") [("x", .scalar "v")]

def docB : RVal := .doc "B" (some "b1") [("c", docC)]

def docA : RVal := .doc "A" (some "a1") [("b", docB)]

/-- A two-entry cache as in the spec's scenario: id `"abc123"` cached
with title `"Y"`. -/
def bufY : List (String × HVal) :=
  [("abc123", .rawH (.scalar "Y")), ("zzz", .rawH (.scalar "Z"))]

/-- An always-failing store. -/
def storeEmpty : String → Option PDoc := fun _ => none

/-- A document whose `refs` field currently holds one reference. -/
def curW : List RVal := [.doc "A" (some "a1") []]

def pW : PDoc := ⟨"Task", some "t1", [("refs", .arr curW)]⟩

/-- A desired array: a new reference `a2`, plus an in-memory object that
is distinct from the persisted one but carries the same identifier
`a1`. -/
def desW : List RVal :=
  [.doc "A" (some "a2") [], .doc "A" (some "a1") [("extra", .scalar "e")]]

/-- A never-saved task with one scalar field. -/
def oTask : DomainObj := ⟨none, [("title", .single (.scalar "X"))]⟩

/-- Its flattened document. -/
def pTaskFlat : PDoc :=
  ⟨"Task", none, [("classname", .scalar "Task"), ("title", .scalar "X"),
    ("entityArrayProperties", .arr []), ("entityProperties", .arr [])]⟩

/-- Its hydrated field list. -/
def fldsTask : List (String × HVal) :=
  [("classname", .rawH (.scalar "Task")), ("title", .rawH (.scalar "X")),
    ("entityArrayProperties", .rawH (.arr [])),
    ("entityProperties", .rawH (.arr []))]

/-- A never-saved object whose scalar field collides with the reserved
bookkeeping attribute name. -/
def oC6 : DomainObj := ⟨none, [("entityProperties", .single (.scalar "boom"))]⟩

def pC6 : PDoc :=
  ⟨"Task", none, [("classname", .scalar "Task"),
    ("entityProperties", .arr []), ("entityArrayProperties", .arr [])]⟩

def fldsC6 : List (String × HVal) :=
  [("classname", .rawH (.scalar "Task")),
    ("entityProperties", .rawH (.arr [])),
    ("entityArrayProperties", .rawH (.arr []))]

/-- A never-saved object exercising the four flatten shapes: a plain
scalar, a reference field, a scalar array, and a reference array. -/
def oC9 : DomainObj :=
  ⟨none, [("title", .single (.scalar "X")),
    ("assignee", .single (.entityObjV (some (.doc "_User" (some "u1") [])))),
    ("tags", .arrF [.scalar "t"]),
    ("children", .arrF [.entityObjV (some (.doc "A" (some "a1") []))])]⟩

def pC9 : PDoc :=
  ⟨"Task", none, [("classname", .scalar "Task"), ("title", .scalar "X"),
    ("assignee", .doc "_User" (some "u1") []), ("tags", .arr [.scalar "t"]),
    ("children", .arr [.doc "A" (some "a1") []]),
    ("entityArrayProperties", .arr [.scalar "children"]),
    ("entityProperties", .arr [.scalar "assignee"])]⟩

/-! ## Basic lemmas about the SDK-level equality -/

mutual

theorem rbeq_refl : ∀ x : RVal, rbeq x x = true
  | .scalar _ => by simp only [rbeq]; simp
  | .undefV => by simp only [rbeq]
  | .file _ _ => by simp only [rbeq]; simp
  | .doc _ _ a => by simp only [rbeq]; simp [rbeqAttrs_refl a]
  | .arr es => by simp only [rbeq]; exact rbeqList_refl es
termination_by x => sizeOf x

theorem rbeqAttrs_refl : ∀ l : List (String × RVal), rbeqAttrs l l = true
  | [] => by simp only [rbeqAttrs]
  | (_, v) :: rest => by
      simp only [rbeqAttrs]; simp [rbeq_refl v, rbeqAttrs_refl rest]
termination_by l => sizeOf l

theorem rbeqList_refl : ∀ l : List RVal, rbeqList l l = true
  | [] => by simp only [rbeqList]
  | v :: rest => by
      simp only [rbeqList]; simp [rbeq_refl v, rbeqList_refl rest]
termination_by l => sizeOf l

end

theorem pEq_refl (x : RVal) : pEq x x = true := by
  cases x <;> simp [pEq, rbeq_refl]

theorem idOf_eq_of_pEq : ∀ {x y : RVal}, pEq x y = true → idOf x = idOf y := by
  intro x y h
  cases x <;> cases y <;> simp_all [pEq, rbeq, idOf]

/-! ## Attribute-bag lemmas -/

theorem lookup_setAttr_self (l : List (String × RVal)) (k : String) (v : RVal) :
    (setAttr l k v).lookup k = some v := by
  induction l with
  | nil => simp [setAttr, List.lookup]
  | cons kv rest ih =>
      obtain ⟨k', v'⟩ := kv
      by_cases h : k' = k
      · subst h; simp [setAttr, List.lookup]
      · have hb : (k == k') = false := by simp [Ne.symm h]
        simp [setAttr, h, List.lookup, hb, ih]

theorem lookup_setAttr_ne (l : List (String × RVal)) {k k' : String} (v : RVal)
    (h : k' ≠ k) : (setAttr l k v).lookup k' = l.lookup k' := by
  have hb : (k' == k) = false := by simp [h]
  induction l with
  | nil => simp [setAttr, List.lookup, hb]
  | cons kv rest ih =>
      obtain ⟨k'', v''⟩ := kv
      by_cases h2 : k'' = k
      · subst h2; simp [setAttr, List.lookup, hb]
      · simp [setAttr, h2, List.lookup, ih]

theorem setAttr_setAttr (l : List (String × RVal)) (k : String) (v w : RVal) :
    setAttr (setAttr l k v) k w = setAttr l k w := by
  induction l with
  | nil => simp [setAttr]
  | cons kv rest ih =>
      obtain ⟨k', v'⟩ := kv
      by_cases h : k' = k
      · subst h; simp [setAttr]
      · simp [setAttr, h, ih]

theorem PDoc.set_set (p : PDoc) (k : String) (v w : RVal) :
    (p.set k v).set k w = p.set k w := by
  simp [PDoc.set, setAttr_setAttr]

/-- Setting a key to the value it already holds changes nothing. -/
theorem setAttr_eq_of_lookup {l : List (String × RVal)} {k : String} {v : RVal}
    (h : l.lookup k = some v) : setAttr l k v = l := by
  induction l with
  | nil => simp [List.lookup] at h
  | cons kv rest ih =>
      obtain ⟨k', v'⟩ := kv
      by_cases hk : k' = k
      · subst hk
        have : v' = v := by simpa [List.lookup] using h
        subst this
        simp [setAttr]
      · have hb : (k == k') = false := by simp [Ne.symm hk]
        have h' : rest.lookup k = some v := by simpa [List.lookup, hb] using h
        simp [setAttr, hk, ih h']

theorem PDoc.set_eq_of_lookup {p : PDoc} {k : String} {v : RVal}
    (h : p.attrs.lookup k = some v) : p.set k v = p := by
  cases p
  simp only [PDoc.set]
  simp [setAttr_eq_of_lookup h]

/-- A missed lookup means no entry carries the key. -/
theorem ne_of_lookup_eq_none {α : Type} {l : List (String × α)} {a : String}
    (h : l.lookup a = none) : ∀ p ∈ l, p.1 ≠ a := by
  induction l with
  | nil => simp
  | cons kv rest ih =>
      obtain ⟨k, v⟩ := kv
      intro p hp
      rcases List.mem_cons.mp hp with hp | hp
      · subst hp
        intro hk
        rw [show a = k from hk.symm ▸ rfl] at h
        simp [List.lookup, hk] at h
      · by_cases hk : a = k
        · subst hk; simp [List.lookup] at h
        · have hb : (a == k) = false := by simp [hk]
          refine ih ?_ p hp
          simpa [List.lookup, hb] using h

/-- Conversely, if no entry carries the key the lookup misses. -/
theorem lookup_eq_none_of_ne {α : Type} {l : List (String × α)} {a : String}
    (h : ∀ p ∈ l, p.1 ≠ a) : l.lookup a = none := by
  induction l with
  | nil => simp [List.lookup]
  | cons kv rest ih =>
      obtain ⟨k, v⟩ := kv
      have hk : k ≠ a := h (k, v) (by simp)
      have hb : (a == k) = false := by simp [Ne.symm hk]
      simp only [List.lookup, hb]
      exact ih (fun p hp => h p (List.mem_cons.mpr (Or.inr hp)))

/-! ## Reference-array differ lemmas -/

theorem mem_addUniqueList {cur : List RVal} {a x : RVal}
    (h : x ∈ addUniqueList cur a) : x ∈ cur ∨ x = a := by
  unfold addUniqueList at h
  split at h
  · exact Or.inl h
  · rcases List.mem_append.mp h with h | h
    · exact Or.inl h
    · exact Or.inr (by simpa using h)

theorem subset_addUniqueList {cur : List RVal} {a x : RVal} (h : x ∈ cur) :
    x ∈ addUniqueList cur a := by
  unfold addUniqueList
  split
  · exact h
  · exact List.mem_append.mpr (Or.inl h)

theorem mem_foldl_addUniqueList {l : List RVal} :
    ∀ {cur : List RVal} {x : RVal},
      x ∈ l.foldl addUniqueList cur → x ∈ cur ∨ x ∈ l := by
  induction l with
  | nil => intro cur x h; exact Or.inl h
  | cons a l ih =>
      intro cur x h
      rw [List.foldl_cons] at h
      rcases ih h with h | h
      · rcases mem_addUniqueList h with h | h
        · exact Or.inl h
        · exact Or.inr (List.mem_cons.mpr (Or.inl h))
      · exact Or.inr (List.mem_cons.mpr (Or.inr h))

theorem subset_foldl_addUniqueList {l : List RVal} :
    ∀ {cur : List RVal} {x : RVal}, x ∈ cur → x ∈ l.foldl addUniqueList cur := by
  induction l with
  | nil => intro cur x h; exact h
  | cons a l ih =>
      intro cur x h
      rw [List.foldl_cons]
      exact ih (subset_addUniqueList h)

/-- Folding `addUnique` over a list containing `a` leaves some element
with `a`'s identifier in the result. -/
theorem exists_id_foldl_addUniqueList {l : List RVal} :
    ∀ {cur : List RVal} {a : RVal}, a ∈ l →
      ∃ w ∈ l.foldl addUniqueList cur, idOf w = idOf a := by
  induction l with
  | nil => intro cur a h; cases h
  | cons b l ih =>
      intro cur a h
      rw [List.foldl_cons]
      rcases List.mem_cons.mp h with h | h
      · subst h
        by_cases hany : cur.any (fun y => pEq y a) = true
        · obtain ⟨y, hy, hpeq⟩ := List.any_eq_true.mp hany
          exact ⟨y, subset_foldl_addUniqueList (subset_addUniqueList hy),
            idOf_eq_of_pEq hpeq⟩
        · have hmem : a ∈ addUniqueList cur a := by
            unfold addUniqueList
            simp [hany]
          exact ⟨a, subset_foldl_addUniqueList hmem, rfl⟩
      · exact ih h

theorem mem_removeList_iff {cur : List RVal} {z x : RVal} :
    x ∈ removeList cur z ↔ x ∈ cur ∧ pEq x z = false := by
  simp [removeList, List.mem_filter]

theorem mem_foldl_removeList_iff {l : List RVal} :
    ∀ {cur : List RVal} {x : RVal},
      x ∈ l.foldl removeList cur ↔ x ∈ cur ∧ ∀ z ∈ l, pEq x z = false := by
  induction l with
  | nil => intro cur x; simp
  | cons z l ih =>
      intro cur x
      rw [List.foldl_cons]
      rw [ih]
      rw [mem_removeList_iff]
      constructor
      · rintro ⟨⟨h1, h2⟩, h3⟩
        refine ⟨h1, ?_⟩
        intro z' hz'
        rcases List.mem_cons.mp hz' with hz' | hz'
        · exact hz' ▸ h2
        · exact h3 z' hz'
      · rintro ⟨h1, h2⟩
        exact ⟨⟨h1, h2 z (List.mem_cons.mpr (Or.inl rfl))⟩,
          fun z' hz' => h2 z' (List.mem_cons.mpr (Or.inr hz'))⟩

/-- After applying the computed diff once, recomputing it against the
same desired array yields two empty deltas. -/
theorem refDiff_idempotent (cur des : List RVal) :
    refToAdd ((refToRemove cur des).foldl removeList
        ((refToAdd cur des).foldl addUniqueList cur)) des = [] ∧
    refToRemove ((refToRemove cur des).foldl removeList
        ((refToAdd cur des).foldl addUniqueList cur)) des = [] := by
  set afterAdd := (refToAdd cur des).foldl addUniqueList cur with hAfter
  set cur' := (refToRemove cur des).foldl removeList afterAdd with hCur'
  have survive : ∀ {w : RVal} {i : Option String}, w ∈ afterAdd →
      idOf w = i → des.any (fun u => idOf u == i) = true → w ∈ cur' := by
    intro w i hw hwi hdes
    rw [hCur', mem_foldl_removeList_iff]
    refine ⟨hw, ?_⟩
    intro z hz
    by_contra hpe
    have hpe' : pEq w z = true := by simpa using hpe
    have hwz : idOf w = idOf z := idOf_eq_of_pEq hpe'
    have hz' := List.mem_filter.mp hz
    have : des.any (fun y => idOf y == idOf z) = true := by
      rw [← hwz, hwi]
      exact hdes
    simp [this] at hz'
  constructor
  · -- every desired id now occurs in cur'
    apply List.filter_eq_nil_iff.mpr
    intro y hy
    simp only [Bool.not_eq_true']
    simp only [Bool.not_eq_true, Bool.not_eq_false]
    by_cases hc : cur.any (fun w => idOf w == idOf y) = true
    · obtain ⟨w, hw, hid⟩ := List.any_eq_true.mp hc
      have hidw : idOf w = idOf y := by simpa using hid
      have hwAfter : w ∈ afterAdd := subset_foldl_addUniqueList hw
      have hdes : des.any (fun u => idOf u == idOf w) = true :=
        List.any_eq_true.mpr ⟨y, hy, by simp [hidw]⟩
      have hwCur' : w ∈ cur' := survive hwAfter rfl hdes
      exact List.any_eq_true.mpr ⟨w, hwCur', by simp [hidw]⟩
    · have hcf : cur.any (fun w => idOf w == idOf y) = false := by
        simpa using hc
      have hyAdd : y ∈ refToAdd cur des :=
        List.mem_filter.mpr ⟨hy, by simp [hcf]⟩
      obtain ⟨w, hwAfter, hidw⟩ := @exists_id_foldl_addUniqueList _ cur _ hyAdd
      have hdes : des.any (fun u => idOf u == idOf w) = true :=
        List.any_eq_true.mpr ⟨y, hy, by simp [hidw]⟩
      have hwCur' : w ∈ cur' := survive hwAfter rfl hdes
      exact List.any_eq_true.mpr ⟨w, hwCur', by simp [hidw]⟩
  · -- every survivor's id occurs among the desired ids
    apply List.filter_eq_nil_iff.mpr
    intro x hx
    simp only [Bool.not_eq_true', Bool.not_eq_true, Bool.not_eq_false]
    have hx' := mem_foldl_removeList_iff.mp (hCur' ▸ hx)
    obtain ⟨hxAfter, hsurv⟩ := hx'
    rcases mem_foldl_addUniqueList hxAfter with hxcur | hxadd
    · by_contra hdes
      have hdes' : des.any (fun y => idOf y == idOf x) = false := by
        simpa using hdes
      have hxRem : x ∈ refToRemove cur des :=
        List.mem_filter.mpr ⟨hxcur, by simp [hdes']⟩
      have := hsurv x hxRem
      rw [pEq_refl x] at this
      cases this
    · have hxd := List.mem_filter.mp hxadd
      exact List.any_eq_true.mpr ⟨x, hxd.1, by simp⟩

/-- The loop over `toAdd` applied to a document whose field currently
holds an array. -/
theorem applyToAdd_spec :
    ∀ (xs : List RVal) (p : PDoc) (k : String) (cur : List RVal),
      p.attrs.lookup k = some (.arr cur) →
      applyToAdd p k xs = some (p.set k (.arr (xs.foldl addUniqueList cur))) := by
  intro xs
  induction xs with
  | nil =>
      intro p k cur h
      simp [applyToAdd, PDoc.set_eq_of_lookup h]
  | cons x xs ih =>
      intro p k cur h
      rw [List.foldl_cons]
      have h1 : pAddUnique p k x
          = some (p.set k (.arr (addUniqueList cur x))) := by
        simp [pAddUnique, h]
      simp only [applyToAdd, h1]
      have h2 : (p.set k (.arr (addUniqueList cur x))).attrs.lookup k
          = some (.arr (addUniqueList cur x)) := lookup_setAttr_self _ _ _
      rw [ih _ k (addUniqueList cur x) h2, PDoc.set_set]

/-- The loop over `toRemove`, likewise. -/
theorem applyToRemove_spec :
    ∀ (xs : List RVal) (p : PDoc) (k : String) (cur : List RVal),
      p.attrs.lookup k = some (.arr cur) →
      applyToRemove p k xs = some (p.set k (.arr (xs.foldl removeList cur))) := by
  intro xs
  induction xs with
  | nil =>
      intro p k cur h
      simp [applyToRemove, PDoc.set_eq_of_lookup h]
  | cons x xs ih =>
      intro p k cur h
      rw [List.foldl_cons]
      have h1 : pRemove p k x = some (p.set k (.arr (removeList cur x))) := by
        simp [pRemove, h]
      simp only [applyToRemove, h1]
      have h2 : (p.set k (.arr (removeList cur x))).attrs.lookup k
          = some (.arr (removeList cur x)) := lookup_setAttr_self _ _ _
      rw [ih _ k (removeList cur x) h2, PDoc.set_set]

/-- The whole diff block succeeds on an array-valued field and leaves it
holding the additions folded in and the removals filtered out. -/
theorem applyRefDiff_spec (p : PDoc) (k : String) (cur des : List RVal)
    (h : p.attrs.lookup k = some (.arr cur)) :
    applyRefDiff p k cur des
      = .ok (p.set k (.arr ((refToRemove cur des).foldl removeList
          ((refToAdd cur des).foldl addUniqueList cur)))) := by
  unfold applyRefDiff
  simp only [applyToAdd_spec _ _ _ _ h]
  have hs : (p.set k (.arr ((refToAdd cur des).foldl addUniqueList cur))).attrs.lookup k
      = some (.arr ((refToAdd cur des).foldl addUniqueList cur)) :=
    lookup_setAttr_self _ _ _
  simp only [applyToRemove_spec _ _ _ _ hs, PDoc.set_set]

/-! ## Flatten-loop lemmas -/

/-- Filtering out one key leaves lookups for other keys alone. -/
theorem lookup_filter_ne_key {α : Type} {l : List (String × α)} {k k' : String}
    (h : k ≠ k') :
    (l.filter (fun kv => kv.1 != k')).lookup k = l.lookup k := by
  induction l with
  | nil => simp
  | cons kv rest ih =>
      obtain ⟨a, b⟩ := kv
      by_cases ha : a = k'
      · subst ha
        have hb : (k == a) = false := by simp [h]
        simp [List.filter_cons, List.lookup, hb, ih]
      · have : ((a, b).1 != k') = true := by simp [ha]
        by_cases hk : k = a
        · subst hk
          simp [List.filter_cons, this, List.lookup]
        · have hb : (k == a) = false := by simp [hk]
          simp [List.filter_cons, this, List.lookup, hb, ih]

/-- One successful step of the `mappings` field loop: the document is
changed only at the step's own key (by an `unset` or a `set`), and the
two bookkeeping lists grow exactly by the step's contribution. -/
theorem mappingsLoop_cons_inv {p : PDoc} {eap ep : List String} {k : String}
    {f : TField} {rest : List (String × TField)}
    {res : PDoc × List String × List String}
    (h : mappingsLoop p eap ep ((k, f) :: rest) = .ok res) :
    ∃ p1 : PDoc,
      mappingsLoop p1 (if isRefArrayField f then eap ++ [k] else eap)
        (if isRefSingleField f then ep ++ [k] else ep) rest = .ok res ∧
      (p1 = p.unset k ∨ ∃ w, p1 = p.set k w) := by
  cases f with
  | undefF =>
      refine ⟨p.unset k, ?_, Or.inl rfl⟩
      simpa [mappingsLoop, isRefArrayField, isRefSingleField] using h
  | single v =>
      refine ⟨p.set k (mapTypescriptAttributeToParseObjectAttribute v), ?_,
        Or.inr ⟨_, rfl⟩⟩
      simpa [mappingsLoop, isRefArrayField, isRefSingleField] using h
  | arrF es =>
      rw [mappingsLoop] at h
      simp only [isRefArrayField, isRefSingleField]
      split at h
      · -- non-empty mapped array
        split at h
        · -- first element is a Parse.Object
          split at h
          · -- current value truthy: the diff path
            split at h
            · -- current value is an array
              rename_i cur heq
              split at h
              · simp at h
              · rename_i p2 happ
                have hspec := applyRefDiff_spec p k cur
                  (es.map mapTypescriptAttributeToParseObjectAttribute) heq
                rw [happ] at hspec
                have hp2 := Except.ok.inj hspec
                exact ⟨p2, h, Or.inr ⟨_, hp2⟩⟩
            · simp at h
          · exact ⟨_, h, Or.inr ⟨_, rfl⟩⟩
        · exact ⟨_, h, Or.inr ⟨_, rfl⟩⟩
      · exact ⟨_, h, Or.inr ⟨_, rfl⟩⟩

/-- Keys not touched by the loop keep their attribute, and the class
name and id are never touched. -/
theorem mappingsLoop_preserves {fs : List (String × TField)} :
    ∀ {p : PDoc} {eap ep : List String}
      {res : PDoc × List String × List String} {k : String},
      (∀ kf ∈ fs, kf.1 ≠ k) →
      mappingsLoop p eap ep fs = .ok res →
      res.1.attrs.lookup k = p.attrs.lookup k ∧
      res.1.className = p.className ∧ res.1.oid = p.oid := by
  induction fs with
  | nil =>
      intro p eap ep res k _ h
      obtain rfl : res = (p, eap, ep) := by simpa [mappingsLoop] using h.symm
      exact ⟨rfl, rfl, rfl⟩
  | cons kf rest ih =>
      intro p eap ep res k hk h
      obtain ⟨k', f⟩ := kf
      have hk' : k' ≠ k := hk (k', f) (List.mem_cons.mpr (Or.inl rfl))
      obtain ⟨p1, h1, hp1⟩ := mappingsLoop_cons_inv h
      have hrest : ∀ kf ∈ rest, kf.1 ≠ k :=
        fun kf hkf => hk kf (List.mem_cons.mpr (Or.inr hkf))
      obtain ⟨ha, hc, ho⟩ := ih hrest h1
      have hlook : p1.attrs.lookup k = p.attrs.lookup k := by
        rcases hp1 with rfl | ⟨w, rfl⟩
        · exact lookup_filter_ne_key (Ne.symm hk')
        · exact lookup_setAttr_ne _ _ (Ne.symm hk')
      have hco : p1.className = p.className ∧ p1.oid = p.oid := by
        rcases hp1 with rfl | ⟨w, rfl⟩
        · exact ⟨rfl, rfl⟩
        · exact ⟨rfl, rfl⟩
      exact ⟨hlook.symm ▸ ha, hco.1 ▸ hc, hco.2 ▸ ho⟩

/-- The class name and id of the document survive the whole loop. -/
theorem mappingsLoop_class_oid {fs : List (String × TField)} :
    ∀ {p : PDoc} {eap ep : List String}
      {res : PDoc × List String × List String},
      mappingsLoop p eap ep fs = .ok res →
      res.1.className = p.className ∧ res.1.oid = p.oid := by
  induction fs with
  | nil =>
      intro p eap ep res h
      obtain rfl : res = (p, eap, ep) := by simpa [mappingsLoop] using h.symm
      exact ⟨rfl, rfl⟩
  | cons kf rest ih =>
      intro p eap ep res h
      obtain ⟨k', f⟩ := kf
      obtain ⟨p1, h1, hp1⟩ := mappingsLoop_cons_inv h
      obtain ⟨hc, ho⟩ := ih h1
      have hco : p1.className = p.className ∧ p1.oid = p.oid := by
        rcases hp1 with rfl | ⟨w, rfl⟩
        · exact ⟨rfl, rfl⟩
        · exact ⟨rfl, rfl⟩
      exact ⟨hco.1 ▸ hc, hco.2 ▸ ho⟩

/-- With unique field keys, a defined non-array field ends up `set` to
its mapped value. -/
theorem mappingsLoop_lookup_single {fs : List (String × TField)} :
    ∀ {p : PDoc} {eap ep : List String}
      {res : PDoc × List String × List String} {k : String} {v : TVal},
      (fs.map Prod.fst).Nodup →
      (k, TField.single v) ∈ fs →
      mappingsLoop p eap ep fs = .ok res →
      res.1.attrs.lookup k
        = some (mapTypescriptAttributeToParseObjectAttribute v) := by
  induction fs with
  | nil => intro p eap ep res k v _ hmem _; cases hmem
  | cons kf rest ih =>
      intro p eap ep res k v hnodup hmem h
      obtain ⟨k', f⟩ := kf
      have hnodup' : (rest.map Prod.fst).Nodup :=
        (List.nodup_cons.mp (by simpa using hnodup)).2
      have hknotin : k' ∉ rest.map Prod.fst :=
        (List.nodup_cons.mp (by simpa using hnodup)).1
      rcases List.mem_cons.mp hmem with heq | hmem'
      · have hk1 : k = k' := congrArg Prod.fst heq
        have hk2 : TField.single v = f := congrArg Prod.snd heq
        subst hk1
        subst hk2
        have h1 : mappingsLoop
            (p.set k (mapTypescriptAttributeToParseObjectAttribute v)) eap
            (if checkIfIndexingIsNeeded v then ep ++ [k] else ep) rest
            = .ok res := by
          simpa [mappingsLoop] using h
        have hrest : ∀ kf ∈ rest, kf.1 ≠ k := by
          intro kf hkf he
          exact hknotin (he ▸ List.mem_map_of_mem Prod.fst hkf)
        have := (mappingsLoop_preserves hrest h1).1
        rw [this]
        exact lookup_setAttr_self _ _ _
      · obtain ⟨p1, h1, _⟩ := mappingsLoop_cons_inv h
        exact ih hnodup' hmem' h1

/-- The two bookkeeping lists collect exactly the reference-array and
reference-single field names, in field order. -/
theorem mappingsLoop_bookkeeping {fs : List (String × TField)} :
    ∀ {p : PDoc} {eap ep : List String}
      {res : PDoc × List String × List String},
      mappingsLoop p eap ep fs = .ok res →
      res.2.1 = eap
          ++ (fs.filter (fun kf => isRefArrayField kf.2)).map Prod.fst ∧
      res.2.2 = ep
          ++ (fs.filter (fun kf => isRefSingleField kf.2)).map Prod.fst := by
  induction fs with
  | nil =>
      intro p eap ep res h
      obtain rfl : res = (p, eap, ep) := by simpa [mappingsLoop] using h.symm
      exact ⟨by simp, by simp⟩
  | cons kf rest ih =>
      intro p eap ep res h
      obtain ⟨k', f⟩ := kf
      obtain ⟨p1, h1, _⟩ := mappingsLoop_cons_inv h
      obtain ⟨ha, hb⟩ := ih h1
      constructor
      · rw [ha]
        by_cases hf : isRefArrayField f = true
        · simp [List.filter_cons, hf]
        · have hf' : isRefArrayField f = false := by simpa using hf
          simp [List.filter_cons, hf']
      · rw [hb]
        by_cases hf : isRefSingleField f = true
        · simp [List.filter_cons, hf]
        · have hf' : isRefSingleField f = false := by simpa using hf
          simp [List.filter_cons, hf']

/-- Lookup commutes with the attribute walk of hydration. -/
theorem hydAttrs_lookup (reg : String → RegEntry) (l : List (String × RVal))
    (d md : Nat) (k : String) :
    (hydAttrs reg l d md).lookup k
      = (l.lookup k).map (fun v => hydVal reg v d md) := by
  induction l with
  | nil => simp [hydAttrs, List.lookup]
  | cons kv rest ih =>
      obtain ⟨k', v⟩ := kv
      by_cases h : k = k'
      · subst h; simp [hydAttrs, List.lookup]
      · have hb : (k == k') = false := by simp [h]
        simp [hydAttrs, List.lookup, hb, ih]

/-! ## Live Buffer cache lemmas -/

/-- Removing a missing key is a no-op. -/
theorem filter_ne_of_lookup_none {α : Type} {l : List (String × α)} {a : String}
    (h : l.lookup a = none) : l.filter (fun kv => kv.1 != a) = l := by
  apply List.filter_eq_self.mpr
  intro p hp
  simpa using ne_of_lookup_eq_none h p hp

/-- After the removal the key is gone. -/
theorem lookup_filter_ne_self {α : Type} (l : List (String × α)) (a : String) :
    (l.filter (fun kv => kv.1 != a)).lookup a = none := by
  apply lookup_eq_none_of_ne
  intro p hp
  have := List.of_mem_filter hp
  simpa using this

/-- With unique keys, removing a present key drops exactly one entry. -/
theorem length_filter_of_lookup_some {α : Type} {l : List (String × α)} {a : String}
    {v : α} (hn : (l.map Prod.fst).Nodup) (h : l.lookup a = some v) :
    (l.filter (fun kv => kv.1 != a)).length + 1 = l.length := by
  induction l with
  | nil => simp [List.lookup] at h
  | cons kv rest ih =>
      obtain ⟨k, w⟩ := kv
      have hn' : (rest.map Prod.fst).Nodup := (List.nodup_cons.mp (by simpa using hn)).2
      by_cases hk : a = k
      · subst hk
        have hnotin : a ∉ rest.map Prod.fst := (List.nodup_cons.mp (by simpa using hn)).1
        have hrest : rest.filter (fun kv => kv.1 != a) = rest := by
          apply List.filter_eq_self.mpr
          intro p hp
          have : p.1 ≠ a := by
            intro he
            exact hnotin (he ▸ List.mem_map_of_mem Prod.fst hp)
          simpa using this
        simp [List.filter_cons, hrest]
      · have hb : (a == k) = false := by simp [hk]
        have h' : rest.lookup a = some v := by simpa [List.lookup, hb] using h
        have : ((k, w).1 != a) = true := by simp [Ne.symm hk]
        simp [List.filter_cons, this]
        exact ih hn' h'

/-- Hydration of a document of a constructor-registered class at the
single-object default depths. -/
theorem mapParse_doc_ctorE {reg : String → RegEntry} {cn : String}
    {oid : Option String} {attrs : List (String × RVal)}
    (h : reg cn = .ctorE) :
    mapParseAttributesToEntityObject reg (.doc cn oid attrs) 0 3
      = .objH cn (hydAttrs reg attrs 0 3) (.doc cn oid attrs) := by
  simp [mapParseAttributesToEntityObject, hydObj, h]

/-! ## Claims about the flatten direction -/

/-- C9: every call to flatten (`mappings`) — create and update cases
alike — sets the two bookkeeping attributes `entityArrayProperties`
(the names of array fields containing at least one reference-shaped
element) and `entityProperties` (the names of single-valued
reference-shaped fields) on the produced document, even when both lists
are empty; so every saved document carries these two extra fields beyond
the domain object's own fields. -/
theorem claim_C9_bookkeeping_attributes (classname : String) (o : DomainObj)
    (p : PDoc) (hm : mappings classname o = .ok p) :
    p.attrs.lookup "entityArrayProperties"
      = some (.arr (((o.fields.filter (fun kf => isRefArrayField kf.2)).map
          Prod.fst).map RVal.scalar)) ∧
    p.attrs.lookup "entityProperties"
      = some (.arr (((o.fields.filter (fun kf => isRefSingleField kf.2)).map
          Prod.fst).map RVal.scalar)) := by
  rw [mappings] at hm
  rcases hres : mappingsLoop
      (match o.entity with
        | some d => d
        | none => { className := classname, oid := none,
                    attrs := [("classname", .scalar classname)] })
      [] [] o.fields with e | ⟨p1, eap, ep⟩
  · rw [hres] at hm; cases hm
  · rw [hres] at hm
    have hm' := Except.ok.inj hm
    subst hm'
    obtain ⟨ha, hb⟩ := mappingsLoop_bookkeeping hres
    simp only at ha hb
    constructor
    · rw [show (((p1.set "entityArrayProperties"
            (.arr (eap.map .scalar))).set "entityProperties"
            (.arr (ep.map .scalar))).attrs)
          = setAttr (p1.set "entityArrayProperties"
              (.arr (eap.map .scalar))).attrs "entityProperties"
              (.arr (ep.map .scalar)) from rfl]
      rw [lookup_setAttr_ne _ _ (by decide :
        ("entityArrayProperties" : String) ≠ "entityProperties")]
      rw [show ((p1.set "entityArrayProperties" (.arr (eap.map .scalar))).attrs)
            = setAttr p1.attrs "entityArrayProperties" (.arr (eap.map .scalar))
          from rfl]
      rw [lookup_setAttr_self]
      rw [ha]
      simp
    · rw [show (((p1.set "entityArrayProperties"
            (.arr (eap.map .scalar))).set "entityProperties"
            (.arr (ep.map .scalar))).attrs)
          = setAttr (p1.set "entityArrayProperties"
              (.arr (eap.map .scalar))).attrs "entityProperties"
              (.arr (ep.map .scalar)) from rfl]
      rw [lookup_setAttr_self]
      rw [hb]
      simp

theorem claim_C9_witness :
    pC9.attrs.lookup "entityArrayProperties"
      = some (.arr [.scalar "children"]) ∧
    pC9.attrs.lookup "entityProperties" = some (.arr [.scalar "assignee"]) :=
  claim_C9_bookkeeping_attributes "Task" oC9 pC9 rfl

/-- C6 counterexample: the never-saved object `oC6` carries the scalar
field `entityProperties = "boom"` — a field name that flatten reserves —
and hydrating its flattened document yields the bookkeeping empty array
for that field, not the original scalar, so the round-trip of the claim
fails at this input. -/
theorem claim_C6_counterexample :
    mappings "Task" oC6 = .ok pC6 ∧
    mapParseAttributesToEntityObject reg0 pC6.toRVal 0 3
      = .objH "Task" fldsC6 pC6.toRVal ∧
    fldsC6.lookup "entityProperties" = some (.rawH (.arr [])) ∧
    (HVal.rawH (.arr [])) ≠ .rawH (.scalar "boom") := by
  refine ⟨rfl, ?_, rfl, by simp⟩
  simp [mapParseAttributesToEntityObject, PDoc.toRVal, pC6, fldsC6,
    hydObj, hydAttrs, hydVal, reg0]

/-- C6 (amended): for every domain object of a registered class with no
prior handle, flatten (`mappings`) produces a new document tagged with
the registered class name, and hydrating that flattened document
recovers every scalar field with its original value — except fields
named `entityArrayProperties` or `entityProperties`, which flatten
reserves and overwrites with its bookkeeping lists. -/
theorem claim_C6_flatten_hydrate_roundtrip (reg : String → RegEntry)
    (classname : String) (o : DomainObj) (p : PDoc) (k s : String)
    (hreg : reg classname = .ctorE)
    (hent : o.entity = none)
    (hnodup : (o.fields.map Prod.fst).Nodup)
    (hmem : (k, TField.single (.scalar s)) ∈ o.fields)
    (hk1 : k ≠ "entityArrayProperties") (hk2 : k ≠ "entityProperties")
    (hm : mappings classname o = .ok p) :
    p.className = classname ∧ p.oid = none ∧
    mapParseAttributesToEntityObject reg p.toRVal 0 3
      = .objH classname (hydAttrs reg p.attrs 0 3) p.toRVal ∧
    (hydAttrs reg p.attrs 0 3).lookup k = some (.rawH (.scalar s)) := by
  rw [mappings, hent] at hm
  rcases hres : mappingsLoop
      { className := classname, oid := none,
        attrs := [("classname", RVal.scalar classname)] }
      [] [] o.fields with e | ⟨p1, eap, ep⟩
  · rw [hres] at hm; cases hm
  · rw [hres] at hm
    have hm' := Except.ok.inj hm
    subst hm'
    obtain ⟨hc, ho⟩ := mappingsLoop_class_oid hres
    simp only at hc ho
    have hcP : ((p1.set "entityArrayProperties"
        (.arr (eap.map .scalar))).set "entityProperties"
        (.arr (ep.map .scalar))).className = classname := hc
    have hoP : ((p1.set "entityArrayProperties"
        (.arr (eap.map .scalar))).set "entityProperties"
        (.arr (ep.map .scalar))).oid = none := ho
    have hlook : ((p1.set "entityArrayProperties"
        (.arr (eap.map .scalar))).set "entityProperties"
        (.arr (ep.map .scalar))).attrs.lookup k = some (.scalar s) := by
      rw [show (((p1.set "entityArrayProperties"
            (.arr (eap.map .scalar))).set "entityProperties"
            (.arr (ep.map .scalar))).attrs)
          = setAttr (p1.set "entityArrayProperties"
              (.arr (eap.map .scalar))).attrs "entityProperties"
              (.arr (ep.map .scalar)) from rfl]
      rw [lookup_setAttr_ne _ _ hk2]
      rw [show ((p1.set "entityArrayProperties" (.arr (eap.map .scalar))).attrs)
            = setAttr p1.attrs "entityArrayProperties" (.arr (eap.map .scalar))
          from rfl]
      rw [lookup_setAttr_ne _ _ hk1]
      exact mappingsLoop_lookup_single hnodup hmem hres
    refine ⟨hcP, hoP, ?_, ?_⟩
    · have hrv : ((p1.set "entityArrayProperties"
          (.arr (eap.map .scalar))).set "entityProperties"
          (.arr (ep.map .scalar))).toRVal
          = .doc classname none ((p1.set "entityArrayProperties"
              (.arr (eap.map .scalar))).set "entityProperties"
              (.arr (ep.map .scalar))).attrs := by
        rw [PDoc.toRVal, hcP, hoP]
      rw [hrv, mapParse_doc_ctorE hreg]
    · rw [hydAttrs_lookup, hlook]
      simp [hydVal]

theorem claim_C6_witness :
    pTaskFlat.className = "Task" ∧ pTaskFlat.oid = none ∧
    mapParseAttributesToEntityObject reg0 pTaskFlat.toRVal 0 3
      = .objH "Task" (hydAttrs reg0 pTaskFlat.attrs 0 3) pTaskFlat.toRVal ∧
    (hydAttrs reg0 pTaskFlat.attrs 0 3).lookup "title"
      = some (.rawH (.scalar "X")) :=
  claim_C6_flatten_hydrate_roundtrip reg0 "Task" oTask pTaskFlat "title" "X"
    rfl rfl (by decide) (by simp [oTask]) (by decide) (by decide) rfl

/-! ## Claims about the Live Buffer event handlers -/

/-- C5: while the Live Buffer is live, for every leave or delete event
whose id is currently cached, the buffer first emits the normalized
event carrying the previously cached value, and afterwards the cache no
longer contains that id; a cache of size N shrinks to N−1.  (The cache
is a JavaScript object, so its keys are unique.) -/
theorem claim_C5_leave_emits_prior_and_removes
    (buf : List (String × HVal)) (id : String) (v : HVal)
    (hn : (buf.map Prod.fst).Nodup) (h : buf.lookup id = some v) :
    (startupBufferLeaveHandler buf id).1 = some v ∧
    (startupBufferLeaveHandler buf id).2.length + 1 = buf.length ∧
    (startupBufferLeaveHandler buf id).2.lookup id = none := by
  refine ⟨by simp [startupBufferLeaveHandler, h], ?_, ?_⟩
  · simpa [startupBufferLeaveHandler] using length_filter_of_lookup_some hn h
  · simpa [startupBufferLeaveHandler] using lookup_filter_ne_self buf id

theorem claim_C5_witness :
    (startupBufferLeaveHandler bufY "abc123").1 = some (.rawH (.scalar "Y")) ∧
    (startupBufferLeaveHandler bufY "abc123").2.length + 1 = bufY.length ∧
    (startupBufferLeaveHandler bufY "abc123").2.lookup "abc123" = none :=
  claim_C5_leave_emits_prior_and_removes bufY "abc123" (.rawH (.scalar "Y"))
    (by decide) rfl

/-- C10: a leave or delete event for an id that is not cached still
emits the normalized event — with an absent (`undefined`) payload — and
leaves the cache contents unchanged. -/
theorem claim_C10_leave_uncached_emits_undefined
    (buf : List (String × HVal)) (id : String) (h : buf.lookup id = none) :
    (startupBufferLeaveHandler buf id).1 = none ∧
    (startupBufferLeaveHandler buf id).2 = buf :=
  ⟨by simp [startupBufferLeaveHandler, h], by
    simpa [startupBufferLeaveHandler] using filter_ne_of_lookup_none h⟩

theorem claim_C10_witness :
    (startupBufferLeaveHandler bufY "nope").1 = none ∧
    (startupBufferLeaveHandler bufY "nope").2 = bufY :=
  claim_C10_leave_uncached_emits_undefined bufY "nope" rfl

/-! ## Claims about save and destroy error propagation -/

/-- C4: if the store rejects the persistence step of `save`, `save` does
not raise: it logs the failure and resolves with the original input
object itself — in particular its `entity` (handle) field is exactly
what it was before the call, no handle having been attached. -/
theorem claim_C4_save_swallows_persist_failure
    (classname : String) (o : DomainObj) (parseObject : PDoc)
    (persist : PDoc → Except String PDoc) (msg : String)
    (hm : mappings classname o = .ok parseObject)
    (hp : persist parseObject = .error msg) :
    save classname o persist = .ok o := by
  simp [save, hm, hp]

theorem claim_C4_witness :
    save "Task" ⟨none, [("title", .single (.scalar "X"))]⟩
      (fun _ => .error "rejected") =
      .ok ⟨none, [("title", .single (.scalar "X"))]⟩ :=
  claim_C4_save_swallows_persist_failure "Task"
    ⟨none, [("title", .single (.scalar "X"))]⟩
    ⟨"Task", none, [("classname", .scalar "Task"), ("title", .scalar "X"),
      ("entityArrayProperties", .arr []), ("entityProperties", .arr [])]⟩
    (fun _ => .error "rejected") "rejected" rfl rfl

/-- C7: `destroy` of an object without a handle fails fatally — for
every store behaviour, i.e. before any store operation — and when the
store rejects the deletion of an object that does have a handle, the
failure is re-raised rather than swallowed. -/
theorem claim_C7_destroy_raises (reg : String → RegEntry) (o : DomainObj)
    (destroyOp : PDoc → Except String PDoc) :
    (o.entity = none → destroy reg o destroyOp = .error "Entity not found") ∧
    (∀ p msg, o.entity = some p → destroyOp p = .error msg →
        destroy reg o destroyOp = .error "Error in deleting entity") := by
  constructor
  · intro h; simp [destroy, h]
  · intro p msg h1 h2; simp [destroy, h1, h2]

theorem claim_C7_witness :
    destroy reg0 ⟨none, []⟩ (fun p => .ok p) = .error "Entity not found" ∧
    destroy reg0 ⟨some ⟨"Task", some "t1", []⟩, []⟩ (fun _ => .error "denied")
      = .error "Error in deleting entity" :=
  ⟨(claim_C7_destroy_raises reg0 ⟨none, []⟩ (fun p => .ok p)).1 rfl,
   (claim_C7_destroy_raises reg0 ⟨some ⟨"Task", some "t1", []⟩, []⟩
      (fun _ => .error "denied")).2 ⟨"Task", some "t1", []⟩ "denied" rfl rfl⟩

/-! ## Claims about fetchObjectByIdIfNeeded -/

/-- C2 counterexample: with an uninitialized (or empty) cache and an
absent object, `fetchObjectByIdIfNeeded` propagates the not-found
failure of `getFullObjectById` instead of resolving with an absent
result, because the empty-cache path returns the fallback's promise
outside any try/catch. -/
theorem claim_C2_counterexample :
    fetchObjectByIdIfNeeded reg0 storeEmpty none "someid"
      = .error "Error: Object not found." ∧
    fetchObjectByIdIfNeeded reg0 storeEmpty (some []) "someid"
      = .error "Error: Object not found." :=
  ⟨rfl, rfl⟩

/-- C2 (amended): when the cache is populated, `fetchObjectByIdIfNeeded`
returns the cached value for a present id without consulting the store
(the result is the same for every store), falls back to
`getFullObjectById` on a miss, and converts that fallback's not-found
failure into an absent result; when the cache is uninitialized or empty
the call delegates directly to `getFullObjectById`, whose not-found
failure propagates. -/
theorem claim_C2_fetchIfNeeded_cache_behaviour
    (reg : String → RegEntry) (id : String) :
    (∀ (buf : List (String × HVal)) v, buf.lookup id = some v →
        ∀ store, fetchObjectByIdIfNeeded reg store (some buf) id
          = .ok (some v)) ∧
    (∀ (buf : List (String × HVal)) store, buf ≠ [] →
        buf.lookup id = none → store id = none →
        fetchObjectByIdIfNeeded reg store (some buf) id = .ok none) ∧
    (∀ store, fetchObjectByIdIfNeeded reg store none id
        = (getFullObjectById reg store id).map some) ∧
    (∀ store, fetchObjectByIdIfNeeded reg store (some []) id
        = (getFullObjectById reg store id).map some) := by
  refine ⟨?_, ?_, fun _ => rfl, fun _ => rfl⟩
  · intro buf v h store
    have hne : buf ≠ [] := by
      intro he; subst he; simp [List.lookup] at h
    have hlen : ¬ buf.length = 0 := by simpa [List.length_eq_zero] using hne
    simp [fetchObjectByIdIfNeeded, hlen, h]
  · intro buf store hne h hstore
    have hlen : ¬ buf.length = 0 := by simpa [List.length_eq_zero] using hne
    simp [fetchObjectByIdIfNeeded, hlen, h, getFullObjectById, hstore]

theorem claim_C2_witness :
    fetchObjectByIdIfNeeded reg0 storeEmpty (some bufY) "abc123"
      = .ok (some (.rawH (.scalar "Y"))) ∧
    fetchObjectByIdIfNeeded reg0 storeEmpty (some bufY) "nope" = .ok none :=
  ⟨(claim_C2_fetchIfNeeded_cache_behaviour reg0 "abc123").1 bufY
      (.rawH (.scalar "Y")) rfl storeEmpty,
   (claim_C2_fetchIfNeeded_cache_behaviour reg0 "nope").2.1 bufY storeEmpty
      (by simp [bufY]) rfl rfl⟩

/-! ## Claims about hydration depth and array dispatch -/

/-- C1: evaluation of the bulk (maximum depth 2) hydration at the
failing input `[A{b: B{c: C{x: "v"}}}]`.  Because
`mapParseArrayOfAttributesToEntityObject` maps its elements through
`mapParseAttributesToEntityObject(parseElement, deepLevel)` without
forwarding `maxDeep`, each row hydrates with that function's default
maximum depth 3: the attribute `x` of the document `C`, reached at
recursion depth 2, is still converted — whereas a hydration that stopped
converting at the array call's maximum depth 2 would leave `C`'s fields
unconverted (second conjunct). -/
theorem claim_C1_bulk_depth_not_honoured :
    afterBufferDownload reg0 [docA] =
      [.objH "A" [("b", .objH "B"
        [("c", .objH "C" [("x", .rawH (.scalar "v"))] docC)] docB)] docA] ∧
    afterBufferDownload reg0 [docA] ≠
      [.objH "A" [("b", .objH "B" [("c", .objH "C" [] docC)] docB)] docA] := by
  have h : afterBufferDownload reg0 [docA] =
      [.objH "A" [("b", .objH "B"
        [("c", .objH "C" [("x", .rawH (.scalar "v"))] docC)] docB)] docA] := by
    simp [afterBufferDownload, mapParseArrayOfAttributesToEntityObject,
      hydElems, hydObj, hydAttrs, hydVal, reg0, docA, docB, docC]
  exact ⟨h, by rw [h]; simp⟩

/-- C8: during hydration, an array attribute is treated as an array of
references (hydrated element-wise through
`mapParseArrayOfAttributesToEntityObject` at depth + 1) if and only if
it is non-empty and its first element is a document; every empty array,
and every array whose first element is not a document — even if later
elements are documents — is copied through unchanged. -/
theorem claim_C8_array_reference_dispatch (reg : String → RegEntry)
    (es : List RVal) (d md : Nat) :
    ((∃ hs, hydVal reg (.arr es) d md = .arrH hs) ↔
        ∃ e es', es = e :: es' ∧ isParseObject e = true) ∧
    (∀ e es', es = e :: es' → isParseObject e = true →
        hydVal reg (.arr es) d md =
          .arrH (mapParseArrayOfAttributesToEntityObject reg es (d + 1) md)) ∧
    ((∀ e es', es = e :: es' → isParseObject e = false) →
        hydVal reg (.arr es) d md = .rawH (.arr es)) := by
  rcases es with _ | ⟨e, es'⟩
  · refine ⟨?_, ?_, ?_⟩
    · constructor
      · rintro ⟨hs, h⟩
        simp [hydVal] at h
      · rintro ⟨e, es', h, _⟩; cases h
    · intro e es' h; cases h
    · intro _; simp [hydVal]
  · by_cases he : isParseObject e = true
    · refine ⟨?_, ?_, ?_⟩
      · simp [hydVal, he]
      · intro e' es'' h _
        cases h
        simp [hydVal, he, mapParseArrayOfAttributesToEntityObject]
      · intro h
        exact absurd he (by simp [h e es' rfl])
    · have he' : isParseObject e = false := by simpa using he
      refine ⟨?_, ?_, ?_⟩
      · constructor
        · rintro ⟨hs, h⟩
          simp [hydVal, he'] at h
        · rintro ⟨e', es'', h, hobj⟩
          cases h
          exact absurd hobj (by simp [he'])
      · intro e' es'' h hobj
        cases h
        exact absurd hobj (by simp [he'])
      · intro _
        simp [hydVal, he']

/-! ## Claim about the reference-array differ -/

/-- C3: the reference-array diff is keyed by identifier and idempotent:
for every desired array and current persisted array, `toAdd` and
`toRemove` are disjoint; two distinct in-memory reference objects with
equal identifiers count as the same element; and after applying the
computed diff once to the document's field, recomputing the diff for
the same desired array yields `toAdd = toRemove = ∅`. -/
theorem claim_C3_reference_diff (p : PDoc) (k : String) (cur des : List RVal)
    (hcur : p.attrs.lookup k = some (.arr cur)) :
    (∀ x ∈ refToAdd cur des, x ∉ refToRemove cur des) ∧
    (∀ x y, x ∈ des → y ∈ cur → idOf y = idOf x →
        x ∉ refToAdd cur des ∧ y ∉ refToRemove cur des) ∧
    (∃ cur', applyRefDiff p k cur des = .ok (p.set k (.arr cur')) ∧
        refToAdd cur' des = [] ∧ refToRemove cur' des = []) := by
  refine ⟨?_, ?_, ?_⟩
  · intro x hxa hxr
    have h1 := List.mem_filter.mp hxa
    have h2 := List.mem_filter.mp hxr
    have hany : cur.any (fun y => idOf y == idOf x) = true :=
      List.any_eq_true.mpr ⟨x, h2.1, by simp⟩
    simp [hany] at h1
  · intro x y hx hy hid
    constructor
    · intro hxa
      have h1 := List.mem_filter.mp hxa
      have hany : cur.any (fun w => idOf w == idOf x) = true :=
        List.any_eq_true.mpr ⟨y, hy, by simp [hid]⟩
      simp [hany] at h1
    · intro hyr
      have h1 := List.mem_filter.mp hyr
      have hany : des.any (fun w => idOf w == idOf y) = true :=
        List.any_eq_true.mpr ⟨x, hx, by simp [hid]⟩
      simp [hany] at h1
  · exact ⟨_, applyRefDiff_spec p k cur des hcur,
      (refDiff_idempotent cur des).1, (refDiff_idempotent cur des).2⟩

theorem claim_C3_witness :
    ((.doc "A" (some "a1") [("extra", .scalar "e")] : RVal)
        ∉ refToAdd curW desW) ∧
    ((.doc "A" (some "a1") [] : RVal) ∉ refToRemove curW desW) :=
  (claim_C3_reference_diff pW "refs" curW desW rfl).2.1
    (.doc "A" (some "a1") [("extra", .scalar "e")]) (.doc "A" (some "a1") [])
    (by simp [desW]) (by simp [curW]) rfl

theorem claim_C8_witness :
    hydVal reg0 (.arr [docC]) 0 3 =
      .arrH (mapParseArrayOfAttributesToEntityObject reg0 [docC] 1 3) ∧
    hydVal reg0 (.arr [.scalar "s", docC]) 0 3
      = .rawH (.arr [.scalar "s", docC]) ∧
    hydVal reg0 (.arr []) 0 3 = .rawH (.arr []) :=
  ⟨(claim_C8_array_reference_dispatch reg0 [docC] 0 3).2.1 docC [] rfl rfl,
   (claim_C8_array_reference_dispatch reg0 [.scalar "s", docC] 0 3).2.2
      (by intro e es' h; cases h; rfl),
   (claim_C8_array_reference_dispatch reg0 [] 0 3).2.2
      (by intro e es' h; cases h)⟩

end DataService
